import Mathlib

/-!
Shallow embedding of the `fnspath` filesystem-helper library (files
`fns.go` and `md5.go`), together with theorems settling the behavioural
claims about it.

The operating system is modelled as an oracle: each system call a
function performs is represented by a field of an oracle structure (or a
function from paths / attempt indices to results), and the Go control
flow is translated statement by statement.  Errors are an inductive type
`Err`; a Go function returning `error` becomes a Lean function returning
`Option Err` (`none` = `nil`).  Paths are lists of characters so that
the index arithmetic of `MkdirAll` can be stated faithfully.
-/

namespace FnsPath

/-- Errors returned by the modelled system calls.  `notDir p` stands for
the Go value `&os.PathError{"mkdir", path, syscall.ENOTDIR}` built in
`MkdirAll` (it carries the offending path); `io n` is an opaque
underlying I/O error distinguished by a tag. -/
inductive Err where
  | notDir (path : List Char)
  | io (n : Nat)
deriving DecidableEq, Repr

/-- A filesystem path, as the list of its characters. -/
abbrev Path := List Char

/-- Result of an `os.Stat` / `os.Lstat` call: the path exists (and is or
is not a directory), does not exist (`os.IsNotExist` holds for the
returned error), or the call failed with some other error. -/
inductive StatRes where
  | ok (isDir : Bool)
  | notExist
  | err (e : Err)
deriving DecidableEq, Repr

/-- Oracle for the system calls used by `IsExists`, `MkdirAll`, `Ensure`
and `Rename`: the result each call would return for a given path. -/
structure FS where
  stat : Path → StatRes
  lstat : Path → StatRes
  mkdir : Path → Option Err
  chmod : Path → Option Err

/-- Embedding of `IsExists` (fns.go lines 17-26): `os.Stat`, mapping an
`IsNotExist` error to `(false, nil)`, any other error to `(true, err)`,
and success to `(true, nil)`. -/
def IsExists (fs : FS) (p : Path) : Bool × Option Err :=
  match fs.stat p with
  | .notExist => (false, none)
  | .err e => (true, some e)
  | .ok _ => (true, none)

/-- Go `os.IsPathSeparator` on Unix: the character is `/`. -/
def isPathSeparator (c : Char) : Bool := c = '/'

/-- The backward scan of fns.go lines 40-43: drop trailing path
separators.  The resulting length is the index `i` of the Go code. -/
def trimTrailing (p : Path) : Path :=
  (p.reverse.dropWhile isPathSeparator).reverse

/-- The backward scan of fns.go lines 45-48: drop the final path
element (maximal run of non-separators).  Applied after `trimTrailing`,
the resulting length is the index `j` of the Go code. -/
def dropLastElem (q : Path) : Path :=
  (q.reverse.dropWhile (fun c => !isPathSeparator c)).reverse

theorem length_dropWhile_le (f : Char → Bool) (l : List Char) :
    (l.dropWhile f).length ≤ l.length := by
  induction l with
  | nil => simp
  | cons c rest ih =>
    cases h : f c with
    | true =>
      rw [List.dropWhile_cons_of_pos h]
      exact Nat.le_trans ih (Nat.le_succ _)
    | false =>
      rw [List.dropWhile_cons_of_neg (by simp [h])]

theorem trimTrailing_length_le (p : Path) : (trimTrailing p).length ≤ p.length := by
  simpa [trimTrailing] using length_dropWhile_le isPathSeparator p.reverse

theorem dropLastElem_length_le (q : Path) : (dropLastElem q).length ≤ q.length := by
  simpa [dropLastElem] using
    length_dropWhile_le (fun c => !isPathSeparator c) q.reverse

/-- Embedding of the `MkdirAll` defined by the package itself (fns.go lines 28-77).
Fast path: stat the path; an existing directory is success, an existing
non-directory is the `notDir` error.  On any stat failure the slow path
finds the parent prefix `path[0:j-1]`, recursively ensures it (when
`j > 1`), then calls `os.Mkdir`; a mkdir failure is forgiven when
`os.Lstat` now reports a directory (creation race), and finally the
permission mode is re-applied with `os.Chmod`. -/
def MkdirAll (fs : FS) (p : Path) (perm : Nat) : Option Err :=
  match fs.stat p with
  | .ok d => if d then none else some (.notDir p)
  | _ =>
    let j := (dropLastElem (trimTrailing p)).length
    let parentRes : Option Err :=
      if h : 1 < j then MkdirAll fs (p.take (j - 1)) perm else none
    match parentRes with
    | some e => some e
    | none =>
      match fs.mkdir p with
      | some e =>
        match fs.lstat p with
        | .ok true => none
        | _ => some e
      | none => fs.chmod p
termination_by p.length
decreasing_by
  have h1 := dropLastElem_length_le (trimTrailing p)
  have h2 := trimTrailing_length_le p
  simp only [List.length_take]
  omega

/-- Embedding of `Ensure` (fns.go lines 79-89): return the `IsExists`
error if any; if the path does not exist, delegate to `MkdirAll`;
otherwise (the path exists, whatever it is) return success. -/
def Ensure (fs : FS) (p : Path) (perm : Nat) : Option Err :=
  match IsExists fs p with
  | (_, some e) => some e
  | (false, none) => MkdirAll fs p perm
  | (true, none) => none

/-- The constant `RemoveAttempts` of fns.go line 13. -/
def RemoveAttempts : Nat := 20

/-- The constant `MvAttempts` of fns.go line 14. -/
def MvAttempts : Nat := 20

/-- The retry loop shared by `Remove` and `MV` (fns.go lines 94-104 and
110-120).  `f k` is the error the underlying destructive call
(`os.RemoveAll` / `os.Rename`) would return on its `k`-th invocation
(0-based); `n` is the remaining attempt budget and `last` the named
return value `e` accumulated so far.  Besides the returned error the
embedding also reports how many times the underlying call was invoked,
so that the attempt bound is observable. -/
def retryAux (f : Nat → Option Err) : Nat → Nat → Option Err → Option Err × Nat
  | 0, k, last => (last, k)
  | n + 1, k, _ =>
    match f k with
    | some e => retryAux f n (k + 1) (some e)
    | none => (none, k + 1)

/-- Embedding of `Remove` (fns.go lines 91-105): retry `os.RemoveAll`
with budget `RemoveAttempts`, starting from `e = nil`.  First component:
the returned error; second: number of `os.RemoveAll` invocations. -/
def Remove (f : Nat → Option Err) : Option Err × Nat :=
  retryAux f RemoveAttempts 0 none

/-- Embedding of `MV` (fns.go lines 107-121): retry `os.Rename` with
budget `MvAttempts`, starting from `e = nil`.  First component: the
returned error; second: number of `os.Rename` invocations. -/
def MV (f : Nat → Option Err) : Option Err × Nat :=
  retryAux f MvAttempts 0 none

/-- Result of the per-pair `os.Stat` in `EnsureMany`: the path exists,
does not exist (`os.IsNotExist`), or the stat failed otherwise. -/
inductive PairStat where
  | ok
  | notExist
  | err (e : Err)
deriving DecidableEq, Repr

/-- Oracle for one `pathAndMode` pair processed by `EnsureMany`: the
result of `os.Stat(r.p)` and the result `os.MkdirAll(r.p, r.mode)`
would return if invoked. -/
structure PairW where
  stat : PairStat
  mkdirAll : Option Err
deriving DecidableEq, Repr

/-- Embedding of `EnsureMany` (fns.go lines 167-179).  For each pair:
stat the path; if `os.IsNotExist`, call the standard library
function `os.MkdirAll` (not the local `MkdirAll`/`Ensure`) and return its
error on failure; any other stat error is returned at once; otherwise
continue with the next pair.  The second component counts the pairs
actually attempted before the function returned. -/
def EnsureMany : List PairW → Option Err × Nat
  | [] => (none, 0)
  | r :: rest =>
    match r.stat with
    | .notExist =>
      match r.mkdirAll with
      | some e => (some e, 1)
      | none =>
        let p := EnsureMany rest
        (p.1, p.2 + 1)
    | .err e => (some e, 1)
    | .ok =>
      let p := EnsureMany rest
      (p.1, p.2 + 1)

/-- The loop of `AbsentMany` (fns.go lines 181-189): `err` is the named
return value, overwritten whenever `Remove` fails for an entry; every
entry is processed.  Each entry is the retry oracle handed to `Remove`
for that path.  The second component counts the entries attempted. -/
def absentManyAux (curr : Option Err) : List (Nat → Option Err) → Option Err × Nat
  | [] => (curr, 0)
  | f :: rest =>
    let e := (Remove f).1
    let next : Option Err :=
      match e with
      | some e0 => some e0
      | none => curr
    let p := absentManyAux next rest
    (p.1, p.2 + 1)

/-- Embedding of `AbsentMany` (fns.go lines 181-189), starting from the
zero value `err = nil`. -/
def AbsentMany (l : List (Nat → Option Err)) : Option Err × Nat :=
  absentManyAux none l

/-- Embedding of `Rename` (fns.go lines 249-255): ensure the parent
directory of `newpath` (computed by the external `filepath.Dir`,
modelled by `dirFn`); on an `Ensure` error, line 251 executes
`return nil`.  Otherwise call `os.Rename` (oracle `renameRes`).  The
Boolean reports whether `os.Rename` was invoked. -/
def Rename (fs : FS) (dirFn : Path → Path) (renameRes : Option Err)
    (newpath : Path) (mode : Nat) : Option Err × Bool :=
  match Ensure fs (dirFn newpath) mode with
  | some _ => (none, false)
  | none => (renameRes, true)

/-- Oracle for one `CopyFile` invocation (fns.go lines 257-289): results
of `os.Open(source)`, `os.Create(dest)`, `io.Copy`, `os.Stat(source)`
(yielding the mode of the source on success) and `os.Chmod(dest, m)` as a
function of the mode argument `m`. -/
structure CopyFileWorld where
  openSrc : Option Err
  createDst : Option Err
  copyErr : Option Err
  statSrc : Except Err Nat
  chmodDst : Nat → Option Err

/-- Embedding of `CopyFile` (fns.go lines 257-289).  Open and create
errors are returned.  The chmod block runs only when `io.Copy` succeeds
(`err == nil` on line 272); when `io.Copy` fails the block is skipped
and the function falls through to `return nil` on line 288.  In the
chmod block, a non-zero `mode` is applied directly, otherwise the source
is stat-ed and its mode applied; all errors there are returned. -/
def CopyFile (w : CopyFileWorld) (mode : Nat) : Option Err :=
  match w.openSrc with
  | some e => some e
  | none =>
    match w.createDst with
    | some e => some e
    | none =>
      match w.copyErr with
      | some _ => none
      | none =>
        if mode ≠ 0 then
          match w.chmodDst mode with
          | some e => some e
          | none => none
        else
          match w.statSrc with
          | .error e => some e
          | .ok srcMode =>
            match w.chmodDst srcMode with
            | some e => some e
            | none => none

/-- A node of the source tree walked by `PathCopyDir`.  A `file` node
carries the error its `CopyFile(src, dst, 0)` call would produce; a
`dir` node carries the results of `os.Stat(source)`,
`os.MkdirAll(dest, mode)` and `Readdir` for that directory, plus its
entries in listing order. -/
inductive FNode where
  | file (copyRes : Option Err)
  | dir (statRes : Option Err) (mkdirRes : Option Err)
      (readdirRes : Option Err) (entries : List FNode)
deriving Repr

mutual

/-- Embedding of `PathCopyDir` (fns.go lines 291-330): stat the source
directory and create the destination with its mode, returning those
errors; then walk the entries.  The named return `err` starts as the
`Readdir` error and is overwritten by the copy result of each entry; entry
failures are only printed (lines 318 and 324), never returned early.
The second component counts the entries attempted at this level. -/
def pathCopyDir : FNode → Option Err × Nat
  | .file c => (c, 0)
  | .dir statRes mkdirRes readdirRes entries =>
    match statRes with
    | some e => (some e, 0)
    | none =>
      match mkdirRes with
      | some e => (some e, 0)
      | none => copyEntries readdirRes entries

/-- The entry loop of `PathCopyDir` (fns.go lines 309-327): `curr` is
the current value of the named return `err`; each entry overwrites it
with the result of the recursive `PathCopyDir` (subdirectory) or of
`CopyFile` (file), and the loop always proceeds to the next entry. -/
def copyEntries : Option Err → List FNode → Option Err × Nat
  | curr, [] => (curr, 0)
  | _, .file c :: rest =>
    let p := copyEntries c rest
    (p.1, p.2 + 1)
  | _, .dir s m r es :: rest =>
    let p := copyEntries (pathCopyDir (.dir s m r es)).1 rest
    (p.1, p.2 + 1)

end

/-- A reusable byte buffer (`bufpool.Buf`): its current contents. -/
structure Buf where
  data : List Nat
deriving DecidableEq, Repr

/-- Modelled from the spec: `bufpool.NewBuf` of the external
`go-x-pkg/bufpool` package (not under src/) obtains a buffer from the
shared pool (spec section 6: `acquire() -> Buffer`); the pool is
modelled as a free list, acquisition takes its head or makes a fresh
empty buffer when the pool is empty. -/
def newBuf : List Buf → Buf × List Buf
  | [] => (⟨[]⟩, [])
  | b :: rest => (b, rest)

/-- Modelled from the spec: `bufpool.Buf.Release` of the external
`go-x-pkg/bufpool` package (not under src/) returns the owned buffer to
the shared pool (spec section 6: `release(Buffer)`); when the record
holds no buffer (`m5.B == nil`), no buffer is returned to the pool. -/
def bufRelease (b : Option Buf) (pool : List Buf) : List Buf :=
  match b with
  | some buf => buf :: pool
  | none => pool

/-- The `MD5` record of md5.go lines 12-17: computation latency, digest
(`Sum`, a 16-byte array whose Go zero value is all zeroes), byte count
(`Sz`) and the owned reusable buffer (`B`, `nil` when not owned). -/
structure MD5 where
  latency : Nat
  sum : List Nat
  sz : Nat
  b : Option Buf
deriving DecidableEq, Repr

/-- The Go zero value of the digest field `Sum [md5.Size]byte`. -/
def zeroDigest : List Nat := List.replicate 16 0

/-- Outcome of one `MD5.Do` call: the updated record, the returned
error, and the buffer pool after the call. -/
structure DoOut where
  record : MD5
  err : Option Err
  pool : List Buf
deriving DecidableEq, Repr

/-- Embedding of `MD5.Do` (md5.go lines 24-54).  `hash` models
`crypto/md5.Sum`; `statRes` the `os.Stat` call (yielding `fi.Size()`),
`readRes` the `ioutil.ReadFile` call, and `lat` the latency measured by
the deferred closure, which fires on every exit path.  A stat error is
returned; `Sz` is then set from the stat.  A read error returns `nil`
(line 38) leaving digest and buffer untouched.  Otherwise the digest is
computed, a buffer is reused (or acquired from the pool when `B` is
`nil`), reset and filled with the bytes read. -/
def MD5.Do (hash : List Nat → List Nat) (statRes : Except Err Nat)
    (readRes : Except Err (List Nat)) (lat : Nat) (m5 : MD5)
    (pool : List Buf) : DoOut :=
  match statRes with
  | .error e => ⟨{ m5 with latency := lat }, some e, pool⟩
  | .ok size =>
    let m1 := { m5 with sz := size }
    match readRes with
    | .error _ => ⟨{ m1 with latency := lat }, none, pool⟩
    | .ok data =>
      let m2 := { m1 with sum := hash data }
      let bp : Buf × List Buf :=
        match m2.b with
        | some b0 => (b0, pool)
        | none => newBuf pool
      ⟨{ m2 with b := some ⟨data⟩, latency := lat }, none, bp.2⟩

/-- Embedding of `MD5.Release` (md5.go lines 19-22): release the owned
buffer (via the modelled `bufpool.Buf.Release`) and clear the reference the record
holds to it. -/
def MD5.Release (m5 : MD5) (pool : List Buf) : MD5 × List Buf :=
  ({ m5 with b := none }, bufRelease m5.b pool)

theorem retryAux_calls_le (f : Nat → Option Err) :
    ∀ (n k : Nat) (last : Option Err), (retryAux f n k last).2 ≤ k + n
  | 0, k, last => by simp [retryAux]
  | n + 1, k, last => by
    cases h : f k with
    | some e =>
      have ih := retryAux_calls_le f n (k + 1) (some e)
      simp only [retryAux, h]
      omega
    | none =>
      simp only [retryAux, h]
      omega

theorem retryAux_first_success (f : Nat → Option Err) :
    ∀ (n j k : Nat) (last : Option Err), j < n →
      (∀ i, i < j → f (k + i) ≠ none) → f (k + j) = none →
      retryAux f n k last = (none, k + j + 1)
  | 0, j, _, _, hj, _, _ => absurd hj (Nat.not_lt_zero j)
  | n + 1, 0, k, last, _, _, hsucc => by
    have hk : f k = none := by simpa using hsucc
    simp [retryAux, hk]
  | n + 1, j0 + 1, k, last, hj, hpre, hsucc => by
    have hk : f k ≠ none := by simpa using hpre 0 (Nat.succ_pos j0)
    cases hfk : f k with
    | none => exact absurd hfk hk
    | some e =>
      have h2 : ∀ i, i < j0 → f (k + 1 + i) ≠ none := by
        intro i hi
        have h3 := hpre (i + 1) (by omega)
        have heq : k + (i + 1) = k + 1 + i := by omega
        rwa [heq] at h3
      have h3 : f (k + 1 + j0) = none := by
        have heq : k + (j0 + 1) = k + 1 + j0 := by omega
        rwa [heq] at hsucc
      have ih := retryAux_first_success f n j0 (k + 1) (some e) (by omega) h2 h3
      simp only [retryAux, hfk, ih, Prod.mk.injEq, true_and]
      omega

theorem retryAux_all_fail (f : Nat → Option Err) :
    ∀ (n k : Nat) (last : Option Err), 0 < n →
      (∀ i, i < n → f (k + i) ≠ none) →
      retryAux f n k last = (f (k + n - 1), k + n)
  | 0, _, _, hn, _ => absurd hn (by omega)
  | n + 1, k, last, _, hall => by
    have hk : f k ≠ none := by simpa using hall 0 (by omega)
    cases hfk : f k with
    | none => exact absurd hfk hk
    | some e =>
      cases Nat.eq_zero_or_pos n with
      | inl h0 =>
        subst h0
        simp only [retryAux, hfk]
        have e1 : k + 1 - 1 = k := by omega
        rw [e1, hfk]
      | inr hpos =>
        have h2 : ∀ i, i < n → f (k + 1 + i) ≠ none := by
          intro i hi
          have h3 := hall (i + 1) (by omega)
          have heq : k + (i + 1) = k + 1 + i := by omega
          rwa [heq] at h3
        have ih := retryAux_all_fail f n (k + 1) (some e) hpos h2
        simp only [retryAux, hfk, ih]
        have e1 : k + 1 + n - 1 = k + (n + 1) - 1 := by omega
        have e2 : k + 1 + n = k + (n + 1) := by omega
        rw [e1, e2]

/-- C3: the retrying `Remove` and `MV` invoke the underlying
`os.RemoveAll` / `os.Rename` at most `RemoveAttempts` = `MvAttempts`
= 20 times, return success immediately at the first successful attempt
(having made exactly `j + 1` calls when attempt `j` is the first to
succeed), always terminate (they are total functions of the attempt
oracle), and when all 20 attempts fail they return the error observed
on the final (20th, index 19) attempt. -/
theorem retry_budget_remove_mv (f : Nat → Option Err) :
    ((Remove f).2 ≤ RemoveAttempts ∧ (MV f).2 ≤ MvAttempts)
    ∧ (∀ j, j < RemoveAttempts → (∀ i, i < j → f i ≠ none) → f j = none →
        Remove f = (none, j + 1) ∧ MV f = (none, j + 1))
    ∧ ((∀ i, i < RemoveAttempts → f i ≠ none) →
        Remove f = (f (RemoveAttempts - 1), RemoveAttempts)
          ∧ MV f = (f (MvAttempts - 1), MvAttempts)) := by
  refine ⟨⟨?_, ?_⟩, ?_, ?_⟩
  · simpa [Remove] using retryAux_calls_le f RemoveAttempts 0 none
  · simpa [MV] using retryAux_calls_le f MvAttempts 0 none
  · intro j hj hpre hj0
    have h1 : ∀ i, i < j → f (0 + i) ≠ none := by simpa using hpre
    have h2 : f (0 + j) = none := by simpa using hj0
    constructor
    · simpa [Remove] using retryAux_first_success f RemoveAttempts j 0 none hj h1 h2
    · simpa [MV] using retryAux_first_success f MvAttempts j 0 none hj h1 h2
  · intro hall
    have h1 : ∀ i, i < RemoveAttempts → f (0 + i) ≠ none := by simpa using hall
    constructor
    · simpa [Remove] using
        retryAux_all_fail f RemoveAttempts 0 none (by norm_num [RemoveAttempts]) h1
    · simpa [MV] using
        retryAux_all_fail f MvAttempts 0 none (by norm_num [MvAttempts]) h1

/-- Witness for C3: with an oracle that fails every attempt with the
same error, both `Remove` and `MV` make exactly 20 calls and return
that error. -/
theorem retry_budget_remove_mv_witness :
    Remove (fun _ => some (Err.io 0)) = (some (Err.io 0), 20)
      ∧ MV (fun _ => some (Err.io 0)) = (some (Err.io 0), 20) := by
  have hall : ∀ i, i < RemoveAttempts → (fun _ => some (Err.io 0)) i ≠ none := by
    intro i _
    simp
  exact (retry_budget_remove_mv (fun _ => some (Err.io 0))).2.2 hall

/-- C1 (code bug): `CopyFile` does NOT propagate a failure of the
byte-stream copy step.  When `os.Open` and `os.Create` succeed but
`io.Copy` fails, the `err == nil` guard on fns.go line 272 skips the
chmod block and the function reaches `return nil` on line 288, so the
copy error is swallowed and success is reported.  The other three steps
(open source, create dest, chmod) do propagate their errors, as the
remaining conjuncts show. -/
theorem copyFile_swallows_stream_error :
    CopyFile ⟨none, none, some (Err.io 5), Except.ok 420, fun _ => none⟩ 0 = none
    ∧ CopyFile ⟨some (Err.io 1), none, none, Except.ok 420, fun _ => none⟩ 0
        = some (Err.io 1)
    ∧ CopyFile ⟨none, some (Err.io 2), none, Except.ok 420, fun _ => none⟩ 0
        = some (Err.io 2)
    ∧ CopyFile ⟨none, none, none, Except.ok 420, fun _ => some (Err.io 3)⟩ 0
        = some (Err.io 3) :=
  ⟨rfl, rfl, rfl, rfl⟩

/-- A filesystem oracle on which every stat reports an existing
regular (non-directory) file. -/
def fileStatFS : FS :=
  ⟨fun _ => .ok false, fun _ => .ok false, fun _ => none, fun _ => none⟩

/-- C2 counterexample: applied to a path that exists as a regular file,
the wrapper `Ensure` (fns.go lines 79-89) reports success (`nil`), not
a "not a directory" error: `IsExists` answers `(true, nil)` for any
existing path, and `Ensure` then returns without ever checking that the
path is a directory. -/
theorem ensure_succeeds_on_regular_file :
    Ensure fileStatFS ['f'] 0 = none := rfl

/-- C2 (amended): the recursive-creation core `MkdirAll` (fns.go lines
28-37) does fail on an existing regular file with the "not a directory"
error carrying the offending path, while the wrapper `Ensure` returns
success for any existing path without checking that it is a
directory. -/
theorem mkdirAll_not_dir_on_file (fs : FS) (p : Path) (perm : Nat)
    (h : fs.stat p = .ok false) :
    MkdirAll fs p perm = some (.notDir p) ∧ Ensure fs p perm = none := by
  constructor
  · unfold MkdirAll
    rw [h]
    rfl
  · simp [Ensure, IsExists, h]

/-- Witness for the amended C2 at a concrete filesystem and path. -/
theorem mkdirAll_not_dir_on_file_witness :
    MkdirAll fileStatFS ['f'] 0 = some (Err.notDir ['f'])
      ∧ Ensure fileStatFS ['f'] 0 = none :=
  mkdirAll_not_dir_on_file fileStatFS ['f'] 0 rfl

theorem copyEntries_count (l : List FNode) :
    ∀ curr, (copyEntries curr l).2 = l.length := by
  induction l with
  | nil =>
    intro curr
    rfl
  | cons hd tl ih =>
    intro curr
    cases hd with
    | file c => simp [copyEntries, ih]
    | dir s m r es => simp [copyEntries, ih]

/-- The value the entry loop of `PathCopyDir` assigns to the named
return `err` for one entry: the `CopyFile` result for a file, the
recursive `PathCopyDir` result for a subdirectory. -/
def entryRes : FNode → Option Err
  | .file c => c
  | .dir s m r es => (pathCopyDir (.dir s m r es)).1

theorem copyEntries_last (ent : FNode) :
    ∀ (l : List FNode) (curr : Option Err),
      (copyEntries curr (l ++ [ent])).1 = entryRes ent
  | [], curr => by
    cases ent with
    | file c => simp [copyEntries, entryRes]
    | dir s m r es => simp [copyEntries, entryRes]
  | hd :: tl, curr => by
    have ih := copyEntries_last ent tl
    cases hd with
    | file c => simp [copyEntries, ih]
    | dir s m r es => simp [copyEntries, ih]

/-- C4: when the source directory stats successfully and the destination
is created, the walk of `PathCopyDir` attempts every entry of the
directory level, whatever errors individual entries produce (the entry
count equals the number of entries for every possible list of entry
outcomes); a per-entry failure never aborts the walk — indeed the
function returns the result of the LAST entry, as the second conjunct
shows, so earlier failures were merely overwritten, never returned
early. -/
theorem pathCopyDir_attempts_all_entries :
    (∀ (r : Option Err) (es : List FNode),
        (pathCopyDir (.dir none none r es)).2 = es.length)
    ∧ (∀ (r : Option Err) (l : List FNode) (ent : FNode),
        (pathCopyDir (.dir none none r (l ++ [ent]))).1 = entryRes ent) := by
  constructor
  · intro r es
    simpa [pathCopyDir] using copyEntries_count es r
  · intro r l ent
    simpa [pathCopyDir] using copyEntries_last ent l r

/-- C5: when the initial `os.Stat` succeeds but `ioutil.ReadFile`
fails, `MD5.Do` returns success (`nil`, md5.go line 38) and, on a fresh
record (digest still the Go zero value), leaves the digest zero rather
than propagating the read error; an error is returned exactly when the
initial stat fails, and it is that stat error. -/
theorem md5_do_swallows_read_error (hash : List Nat → List Nat)
    (size lat : Nat) (e : Err) (m5 : MD5) (pool : List Buf)
    (hfresh : m5.sum = zeroDigest) :
    (MD5.Do hash (.ok size) (.error e) lat m5 pool).err = none
    ∧ (MD5.Do hash (.ok size) (.error e) lat m5 pool).record.sum = zeroDigest
    ∧ (∀ (e2 : Err) (rd : Except Err (List Nat)),
        (MD5.Do hash (.error e2) rd lat m5 pool).err = some e2)
    ∧ (∀ (sz2 : Nat) (rd : Except Err (List Nat)),
        (MD5.Do hash (.ok sz2) rd lat m5 pool).err = none) := by
  refine ⟨rfl, ?_, fun e2 rd => rfl, fun sz2 rd => ?_⟩
  · simpa [MD5.Do] using hfresh
  · cases rd <;> rfl

/-- Witness for C5 on a fresh zero record: a failed read after a
successful size stat yields success and the zero digest. -/
theorem md5_do_swallows_read_error_witness :
    (MD5.Do (fun _ => []) (.ok 4) (.error (Err.io 8)) 7
        ⟨0, zeroDigest, 0, none⟩ []).err = none
    ∧ (MD5.Do (fun _ => []) (.ok 4) (.error (Err.io 8)) 7
        ⟨0, zeroDigest, 0, none⟩ []).record.sum = zeroDigest := by
  have h := md5_do_swallows_read_error (fun _ => []) 4 7 (Err.io 8)
    ⟨0, zeroDigest, 0, none⟩ [] rfl
  exact ⟨h.1, h.2.1⟩

/-- C6: after a successful `MD5.Do` computation — stat and read both
succeed, the stat size agreeing with the number of bytes read (the
single-writer assumption of the spec: the file is not mutated between
the stat and the read) — the record owns a buffer whose length equals
the recorded size field `Sz`. -/
theorem md5_do_size_eq_buffer_length (hash : List Nat → List Nat)
    (size lat : Nat) (data : List Nat) (m5 : MD5) (pool : List Buf)
    (hsz : size = data.length) :
    (MD5.Do hash (.ok size) (.ok data) lat m5 pool).err = none
    ∧ ∃ buf : Buf,
        (MD5.Do hash (.ok size) (.ok data) lat m5 pool).record.b = some buf
        ∧ (MD5.Do hash (.ok size) (.ok data) lat m5 pool).record.sz
            = buf.data.length := by
  refine ⟨rfl, ⟨data⟩, rfl, ?_⟩
  simpa [MD5.Do] using hsz

/-- Witness for C6 on a two-byte file. -/
theorem md5_do_size_eq_buffer_length_witness :
    (MD5.Do (fun l => l) (.ok 2) (.ok [7, 8]) 3 ⟨0, zeroDigest, 0, none⟩ []).err = none
    ∧ ∃ buf : Buf,
        (MD5.Do (fun l => l) (.ok 2) (.ok [7, 8]) 3
            ⟨0, zeroDigest, 0, none⟩ []).record.b = some buf
        ∧ (MD5.Do (fun l => l) (.ok 2) (.ok [7, 8]) 3
            ⟨0, zeroDigest, 0, none⟩ []).record.sz = buf.data.length :=
  md5_do_size_eq_buffer_length (fun l => l) 2 3 [7, 8] ⟨0, zeroDigest, 0, none⟩ [] rfl

/-- C7: `MD5.Release` clears the owned-buffer reference, and a second
`Release` on the same record is the identity on both the record and the
pool: because the reference was cleared, no buffer — in particular not
the originally owned one a second time — is returned to the pool, so
pool state is not corrupted.  Both releases are total functions: no
outcome of this layer is a panic or process termination. -/
theorem md5_double_release_pool_safe (m5 : MD5) (pool : List Buf) :
    (MD5.Release m5 pool).1.b = none
    ∧ MD5.Release (MD5.Release m5 pool).1 (MD5.Release m5 pool).2
        = ((MD5.Release m5 pool).1, (MD5.Release m5 pool).2) := by
  cases m5
  exact ⟨rfl, rfl⟩

/-- Holds when `EnsureMany` processes the pair without returning: the
stat saw an existing path, or the path was absent and `os.MkdirAll`
succeeded. -/
def pairOk (r : PairW) : Prop :=
  r.stat = .ok ∨ (r.stat = .notExist ∧ r.mkdirAll = none)

/-- Holds when the pair makes `EnsureMany` return the error `e`: the
stat failed with `e` (an error other than not-exist), or the path was
absent and `os.MkdirAll` failed with `e`. -/
def pairFails (r : PairW) (e : Err) : Prop :=
  r.stat = .err e ∨ (r.stat = .notExist ∧ r.mkdirAll = some e)

/-- C8: `EnsureMany` checks each pair with a plain `os.Stat`, creates an
absent path with the standard library `os.MkdirAll` (not the idempotent
`Ensure`/package `MkdirAll`), and the first pair whose stat or creation
fails makes the batch return that error immediately — exactly the
leading successful pairs plus the failing one are attempted, the rest
are not; when every pair succeeds, all pairs are attempted and `nil` is
returned. -/
theorem ensureMany_first_failure_aborts :
    (∀ l : List PairW, (∀ r ∈ l, pairOk r) → EnsureMany l = (none, l.length))
    ∧ (∀ (l1 : List PairW) (bad : PairW) (l2 : List PairW) (e : Err),
        (∀ r ∈ l1, pairOk r) → pairFails bad e →
        EnsureMany (l1 ++ bad :: l2) = (some e, l1.length + 1)) := by
  constructor
  · intro l hl
    induction l with
    | nil => rfl
    | cons hd tl ih =>
      have hhd := hl hd (List.mem_cons_self hd tl)
      have ih2 := ih (fun r hr => hl r (List.mem_cons_of_mem hd hr))
      rcases hhd with h1 | ⟨h2, h3⟩
      · simp [EnsureMany, h1, ih2]
      · simp [EnsureMany, h2, h3, ih2]
  · intro l1 bad l2 e h1 hbad
    induction l1 with
    | nil =>
      rcases hbad with h | ⟨h2, h3⟩
      · simp [EnsureMany, h]
      · simp [EnsureMany, h2, h3]
    | cons hd tl ih =>
      have hhd := h1 hd (List.mem_cons_self hd tl)
      have ih2 := ih (fun r hr => h1 r (List.mem_cons_of_mem hd hr))
      rcases hhd with h | ⟨h2, h3⟩
      · simp [EnsureMany, h, ih2]
      · simp [EnsureMany, h2, h3, ih2]

/-- Witness for C8: a batch of three pairs in which the second fails in
its `os.MkdirAll` step returns that error after attempting exactly two
pairs; the third pair is not attempted. -/
theorem ensureMany_first_failure_aborts_witness :
    EnsureMany [⟨.notExist, none⟩, ⟨.notExist, some (Err.io 2)⟩, ⟨.ok, none⟩]
      = (some (Err.io 2), 2) := by
  have h := ensureMany_first_failure_aborts.2 [⟨.notExist, none⟩]
    ⟨.notExist, some (Err.io 2)⟩ [⟨.ok, none⟩] (Err.io 2)
    (by
      intro r hr
      rcases List.mem_singleton.mp hr with rfl
      exact Or.inr ⟨rfl, rfl⟩)
    (Or.inr ⟨rfl, rfl⟩)
  exact h

theorem absentManyAux_count (l : List (Nat → Option Err)) :
    ∀ curr, (absentManyAux curr l).2 = l.length := by
  induction l with
  | nil =>
    intro curr
    rfl
  | cons f rest ih =>
    intro curr
    simp [absentManyAux, ih]

theorem absentManyAux_keep :
    ∀ (l : List (Nat → Option Err)), (∀ f ∈ l, (Remove f).1 = none) →
      ∀ curr, (absentManyAux curr l).1 = curr
  | [], _, curr => rfl
  | f :: rest, hl, curr => by
    have hf := hl f (List.mem_cons_self f rest)
    have ih := absentManyAux_keep rest (fun g hg => hl g (List.mem_cons_of_mem f hg))
    simp [absentManyAux, hf, ih]

theorem absentManyAux_last :
    ∀ (l1 : List (Nat → Option Err)) (f : Nat → Option Err)
      (l2 : List (Nat → Option Err)) (e : Err),
      (Remove f).1 = some e → (∀ g ∈ l2, (Remove g).1 = none) →
      ∀ curr, (absentManyAux curr (l1 ++ f :: l2)).1 = some e
  | [], f, l2, e, hf, hl2, curr => by
    simp [absentManyAux, hf, absentManyAux_keep l2 hl2]
  | g :: rest, f, l2, e, hf, hl2, curr => by
    have ih := absentManyAux_last rest f l2 e hf hl2
    simp [absentManyAux, ih]

/-- C9 counterexample: for the multi-path ensure helper the claim
fails — on a batch of two pairs that both fail their stat, `EnsureMany`
does NOT attempt every entry (it attempts one of the two) and does NOT
return the last-seen error (it returns the first). -/
theorem ensureMany_not_attempt_all :
    ¬ ((EnsureMany [⟨.err (Err.io 1), none⟩, ⟨.err (Err.io 2), none⟩]).2
          = [(⟨.err (Err.io 1), none⟩ : PairW), ⟨.err (Err.io 2), none⟩].length
        ∧ (EnsureMany [⟨.err (Err.io 1), none⟩, ⟨.err (Err.io 2), none⟩]).1
          = some (Err.io 2)) := by
  decide

/-- C9 (amended): the multi-path REMOVE helper `AbsentMany` attempts
every entry even when earlier entries fail and returns only the
last-seen error (success when no entry failed); the multi-path ensure
helper `EnsureMany`, by contrast, stops at the first failing pair and
returns that first error. -/
theorem absentMany_attempts_all_last_error :
    (∀ l, (AbsentMany l).2 = l.length)
    ∧ (∀ l, (∀ f ∈ l, (Remove f).1 = none) → (AbsentMany l).1 = none)
    ∧ (∀ (l1 : List (Nat → Option Err)) (f : Nat → Option Err)
        (l2 : List (Nat → Option Err)) (e : Err),
        (Remove f).1 = some e → (∀ g ∈ l2, (Remove g).1 = none) →
        (AbsentMany (l1 ++ f :: l2)).1 = some e) :=
  ⟨fun l => absentManyAux_count l none,
   fun l hl => absentManyAux_keep l hl none,
   fun l1 f l2 e hf hl2 => absentManyAux_last l1 f l2 e hf hl2 none⟩

/-- Witness for the amended C9: a failing removal followed by a
succeeding one — both entries are attempted and the failing removal,
being the last-seen error, is returned. -/
theorem absentMany_attempts_all_last_error_witness :
    (AbsentMany [fun _ => some (Err.io 7), fun _ => none]).1 = some (Err.io 7)
    ∧ (AbsentMany [fun _ => some (Err.io 7), fun _ => none]).2 = 2 := by
  constructor
  · exact absentMany_attempts_all_last_error.2.2 [] (fun _ => some (Err.io 7))
      [fun _ => none] (Err.io 7) rfl
      (by
        intro g hg
        rcases List.mem_singleton.mp hg with rfl
        rfl)
  · exact absentMany_attempts_all_last_error.1 [fun _ => some (Err.io 7), fun _ => none]

/-- C10: when the `Ensure` step on the parent of `newpath` fails,
`Rename` executes `return nil` (fns.go line 251): it reports success,
never invokes `os.Rename`, and the ensure-step error is not surfaced. -/
theorem rename_swallows_ensure_error (fs : FS) (dirFn : Path → Path)
    (renameRes : Option Err) (newpath : Path) (mode : Nat) (e : Err)
    (h : Ensure fs (dirFn newpath) mode = some e) :
    Rename fs dirFn renameRes newpath mode = (none, false) := by
  simp [Rename, h]

/-- A filesystem oracle whose stat always fails with an error other
than not-exist, making `Ensure` fail. -/
def statErrFS : FS :=
  ⟨fun _ => .err (Err.io 3), fun _ => .notExist, fun _ => none, fun _ => none⟩

/-- Witness for C10: with a failing ensure step and an `os.Rename` that
would itself fail, `Rename` still reports success without invoking the
rename. -/
theorem rename_swallows_ensure_error_witness :
    Rename statErrFS (fun p => p) (some (Err.io 9)) ['n'] 0 = (none, false) :=
  rename_swallows_ensure_error statErrFS (fun p => p) (some (Err.io 9)) ['n'] 0
    (Err.io 3) rfl

end FnsPath
